import Mathlib

/-!
Verification of the PNG ancillary-metadata codec of the ComfyUI-History
repository (file src/web/history-loader.js, both the inline copy and the
modularized copy of the loader).

Modelling conventions.
A PNG byte buffer (a JS Uint8Array) is a List Nat whose entries are bytes
in the range 0..255.  JS strings produced by TextDecoder are represented
by their byte sequences (List Nat); TextEncoder/TextDecoder are therefore
the identity in this embedding, which is faithful on the valid UTF-8
inputs the claims quantify over.  The JS object used as the metadata map
is represented by an association list in insertion order; assigning to an
existing key replaces its value in place, which is exactly the observable
behaviour of a plain JS object used as a string-keyed dictionary.
Out-of-range indexing of a Uint8Array yields undefined, which the source
feeds into shift and charCode operations where it behaves as byte 0; the
embedding returns 0 there.
-/

/-- A JS object used as a map from decoded keyword to decoded text,
in insertion order with unique keys (src: `const texts = {}`). -/
abbrev MetadataMap := List (List Nat × List Nat)

/-- `texts[keyword] = text` on a plain JS object: replace the value in
place when the key exists, append otherwise (src line 71). -/
def jsInsert : MetadataMap → List Nat → List Nat → MetadataMap
  | [], k, v => [(k, v)]
  | (k2, v2) :: rest, k, v =>
    if k2 = k then (k2, v) :: rest else (k2, v2) :: jsInsert rest k v

/-- Property lookup `texts[key]` on the association-list model:
`none` models an absent key (JS `undefined`). -/
def lookupMap : MetadataMap → List Nat → Option (List Nat)
  | [], _ => none
  | (k2, v2) :: rest, k => if k2 = k then some v2 else lookupMap rest k

/-- The value of the last entry of the list carrying the given key,
if any: the specification of last-write-wins accumulation. -/
def lastEntryVal : List (List Nat × List Nat) → List Nat → Option (List Nat)
  | [], _ => none
  | (k2, v2) :: rest, k =>
    (lastEntryVal rest k).or (if k2 = k then some v2 else none)

/-- Byte codes of the ASCII chunk type `tEXt` (116, 69, 88, 116). -/
def tEXtBytes : List Nat := [116, 69, 88, 116]

/-- Byte codes of the ASCII chunk type `zTXt` (122, 84, 88, 116). -/
def zTXtBytes : List Nat := [122, 84, 88, 116]

/-- Byte codes of the keyword string `workflow`. -/
def workflowBytes : List Nat := [119, 111, 114, 107, 102, 108, 111, 119]

/-- The fixed 8-byte PNG signature that the walker skips (src line 57). -/
def pngSig : List Nat := [137, 80, 78, 71, 13, 10, 26, 10]

/-- `uint8[i]` with JS semantics for the contexts the source uses it in:
out-of-range or negative indices give undefined, which behaves as 0 under
the shift, or and fromCharCode operations of lines 58 and 61. -/
def getByte (buf : List Nat) (i : Int) : Nat :=
  if i < 0 then 0 else buf.getD i.toNat 0

/-- Reinterpret a nonnegative integer as a signed 32-bit value, as JS
bitwise operators do. -/
def toInt32 (u : Nat) : Int :=
  if u % 4294967296 < 2147483648 then ((u % 4294967296 : Nat) : Int)
  else ((u % 4294967296 : Nat) : Int) - 4294967296

/-- src line 58: `(uint8[pos] << 24) | (uint8[pos+1] << 16) | (uint8[pos+2]
<< 8) | uint8[pos+3]`.  On byte values the ors combine disjoint bit ranges,
so the result is the big-endian sum reinterpreted as a SIGNED 32-bit
integer: JS bitwise operators produce int32, not uint32. -/
def readUint32 (buf : List Nat) (pos : Int) : Int :=
  toInt32 (getByte buf pos * 16777216 + getByte buf (pos + 1) * 65536 +
    getByte buf (pos + 2) * 256 + getByte buf (pos + 3))

/-- Index clamping of `TypedArray.prototype.slice`: a negative index counts
from the end, then the index is clamped to `[0, length]`. -/
def jsRelIdx (len : Nat) (i : Int) : Int :=
  if i < 0 then max ((len : Int) + i) 0 else min i (len : Int)

/-- `uint8.slice(s, e)` with full JS semantics (src lines 66, 69, 70). -/
def jsSlice (buf : List Nat) (s e : Int) : List Nat :=
  (buf.drop (jsRelIdx buf.length s).toNat).take
    ((jsRelIdx buf.length e) - (jsRelIdx buf.length s)).toNat

/-- `data.indexOf(0)` from src line 67, as an option: `some i` means the
first zero byte sits at index `i`; `none` models the return value -1. -/
def firstZeroIdx : List Nat → Option Nat
  | [] => none
  | b :: rest => if b = 0 then some 0 else (firstZeroIdx rest).map (· + 1)

/-- What the loop body of `parsePngTexts` observes at a given offset
(src lines 59-64): the loop condition fails (`done`), the declared data
end overruns the buffer and the loop breaks (`brk`), or a chunk with the
given signed length, type bytes, data slice and successor offset is
processed (`cont`). -/
inductive PngView where
  | done : PngView
  | brk : PngView
  | cont (len : Int) (typeB : List Nat) (data : List Nat) (next : Int) : PngView
deriving DecidableEq, Repr

/-- One inspection of the walker state, a direct transcription of src
lines 59-64: `length = readUint32(offset)`; `type` is the 4 bytes at
`offset+4`; `dataStart = offset+8`; `dataEnd = dataStart + length`;
`if (dataEnd > uint8.length) break`; the next offset is `dataEnd + 4`. -/
def pngView (buf : List Nat) (offset : Int) : PngView :=
  if offset + 8 > (buf.length : Int) then PngView.done
  else if offset + 8 + readUint32 buf offset > (buf.length : Int) then PngView.brk
  else PngView.cont (readUint32 buf offset)
    [getByte buf (offset + 4), getByte buf (offset + 5),
     getByte buf (offset + 6), getByte buf (offset + 7)]
    (jsSlice buf (offset + 8) (offset + 8 + readUint32 buf offset))
    (offset + 8 + readUint32 buf offset + 4)

/-- The tEXt handling of one loop iteration (src lines 65-73): on a tEXt
chunk, split the data at the first zero byte into keyword and text and
store the pair; a tEXt chunk without a zero byte, or a chunk of any other
type, leaves the map unchanged. -/
def applyChunk (acc : MetadataMap) (typeB : List Nat) (data : List Nat) :
    MetadataMap :=
  if typeB = tEXtBytes then
    match firstZeroIdx data with
    | some i => jsInsert acc (data.take i) (data.drop (i + 1))
    | none => acc
  else acc

/-- The keyword/text pairs one chunk contributes, as a list (empty for a
non-tEXt chunk or a tEXt chunk without a zero byte). -/
def chunkEntries (typeB : List Nat) (data : List Nat) :
    List (List Nat × List Nat) :=
  if typeB = tEXtBytes then
    match firstZeroIdx data with
    | some i => [(data.take i, data.drop (i + 1))]
    | none => []
  else []

/-- The while loop of `parsePngTexts` (src lines 59-75), with explicit
fuel: the JS loop has no a-priori termination guarantee (the length field
is signed), so `none` means the loop has not finished within `fuel`
iterations, and `some m` means it returned the map `m`. -/
def walkFrom (buf : List Nat) (fuel : Nat) (offset : Int) (acc : MetadataMap) :
    Option MetadataMap :=
  match pngView buf offset with
  | PngView.done => some acc
  | PngView.brk => some acc
  | PngView.cont _ t d next =>
    match fuel with
    | 0 => none
    | Nat.succ f => walkFrom buf f next (applyChunk acc t d)

/-- `parsePngTexts` (src lines 55-77): start at offset 8 with an empty
map and run the chunk walk. -/
def parsePngTexts (buf : List Nat) (fuel : Nat) : Option MetadataMap :=
  walkFrom buf fuel 8 []

/-- Ghost companion of `walkFrom`: the keyword/text pairs emitted by the
walk, in stream order. -/
def walkEntries (buf : List Nat) (fuel : Nat) (offset : Int) :
    Option (List (List Nat × List Nat)) :=
  match pngView buf offset with
  | PngView.done => some []
  | PngView.brk => some []
  | PngView.cont _ t d next =>
    match fuel with
    | 0 => none
    | Nat.succ f => (walkEntries buf f next).map (fun es => chunkEntries t d ++ es)

/-- Ghost companion of `walkFrom`: the declared lengths (as read by the
code) of the chunks the walk processes, together with the offset at which
the walk stops. -/
def walkTrace (buf : List Nat) (fuel : Nat) (offset : Int) :
    Option (List Int × Int) :=
  match pngView buf offset with
  | PngView.done => some ([], offset)
  | PngView.brk => some ([], offset)
  | PngView.cont L _ _ next =>
    match fuel with
    | 0 => none
    | Nat.succ f => (walkTrace buf f next).map (fun p => (L :: p.1, p.2))

/-- Modelled from the spec: `decodeTextChunk` of the missing
`/scripts/png.js` module (spec section 4.2): split the chunk data at the
first zero byte; the bytes before it are the keyword, the bytes after it
the text; without a zero byte the chunk is malformed and yields no pair. -/
def decodeTextChunk (data : List Nat) : Option (List Nat × List Nat) :=
  match firstZeroIdx data with
  | some i => some (data.take i, data.drop (i + 1))
  | none => none

/-- One bit-step of the standard PNG CRC-32: shift right, conditionally
xor with the reflected polynomial 0xEDB88320. -/
def crcStep (c : Nat) : Nat :=
  if c % 2 = 1 then 3988292384 ^^^ (c / 2) else c / 2

/-- Iterate `crcStep`. -/
def crcN : Nat → Nat → Nat
  | 0, c => c
  | Nat.succ n, c => crcN n (crcStep c)

/-- Feed one byte into the CRC-32 register. -/
def crcUpdate (c b : Nat) : Nat := crcN 8 (c ^^^ (b % 256))

/-- Modelled from the spec: standard PNG CRC-32 over a byte sequence
(polynomial 0xEDB88320, register initialized to all ones and xored with
all ones at the end), used by the encode path of the missing
`/scripts/png.js` module (spec sections 4.4 and 6). -/
def crc32 (data : List Nat) : Nat :=
  (data.foldl crcUpdate 4294967295) ^^^ 4294967295

/-- Big-endian 4-byte encoding of an unsigned 32-bit value. -/
def be32 (n : Nat) : List Nat :=
  [n / 16777216 % 256, n / 65536 % 256, n / 256 % 256, n % 256]

/-- Modelled from the spec: `encodeTextChunk` of the missing
`/scripts/png.js` module (spec section 4.4): 4-byte big-endian length
(keyword length + 1 + text length), ASCII type `tEXt`, keyword bytes, one
zero separator, text bytes, and a trailing CRC-32 over type and data. -/
def encodeTextChunk (k t : List Nat) : List Nat :=
  be32 (k.length + 1 + t.length) ++
    (tEXtBytes ++ ((k ++ 0 :: t) ++ be32 (crc32 (tEXtBytes ++ (k ++ 0 :: t)))))

/-- Modelled from the spec: `decodeZtextChunk` of the missing
`/scripts/png.js` module (spec section 4.2, compressed path): split at the
first zero byte, read the one-byte compression method (must be 0), inflate
the remaining bytes and use them as the text.  The inflate routine is a
parameter; `none` models the per-chunk decode error the callers catch. -/
def decodeZtextChunk (inflate : List Nat → Option (List Nat))
    (data : List Nat) : Option (List Nat × List Nat) :=
  match firstZeroIdx data with
  | none => none
  | some i =>
    match data.drop (i + 1) with
    | [] => none
    | m :: comp =>
      if m = 0 then (inflate comp).map (fun txt => (data.take i, txt))
      else none

/-- A chunk record as produced by `parseChunks` of the missing
`/scripts/png.js` module: the modularized loop reads `chunk.name` and
`chunk.data` (src lines 630-635 of the modularized copy). -/
structure ModChunk where
  name : List Nat
  data : List Nat
deriving DecidableEq, Repr

/-- The map-builder loop of the modularized `readPngWorkflow` (src lines
629-641 of the modularized copy): tEXt chunks are decoded with
`decodeTextChunk`, zTXt chunks with `decodeZtextChunk` under a try/catch
that skips the chunk on failure; other chunk types are ignored. -/
def modBuildTexts (inflate : List Nat → Option (List Nat)) :
    List ModChunk → MetadataMap → MetadataMap
  | [], acc => acc
  | c :: cs, acc =>
    if c.name = tEXtBytes then
      match decodeTextChunk c.data with
      | some (k, t) => modBuildTexts inflate cs (jsInsert acc k t)
      | none => modBuildTexts inflate cs acc
    else if c.name = zTXtBytes then
      match decodeZtextChunk inflate c.data with
      | some (k, t) => modBuildTexts inflate cs (jsInsert acc k t)
      | none => modBuildTexts inflate cs acc
    else modBuildTexts inflate cs acc

/-- The keyword lookup of `readPngWorkflow` (src lines 103-107):
`if (!(key in texts)) reject(...); resolve(texts[key])` — the `in` test
distinguishes an absent key from a present key with any value, so the
result is `none` exactly for an absent key. -/
def readPngLookup (texts : MetadataMap) (key : List Nat) : Option (List Nat) :=
  match lookupMap texts key with
  | some v => some v
  | none => none

/-- The workflow lookup of `loadWorkflowFromRemotePng` (src lines
199-203): `const raw = texts.workflow; if (!raw) throw ...` — a JS
truthiness test, so `none` (the thrown not-found error) results both when
the key is absent and when its text is the empty string. -/
def remoteLookup (texts : MetadataMap) : Option (List Nat) :=
  match lookupMap texts workflowBytes with
  | some v => if v = [] then none else some v
  | none => none

/-- 16-byte buffer: PNG signature, then length field FF FF FF F4 (which
`readUint32` reads as the signed value -12) and type IDAT.  At offset 8
the walk computes `dataEnd = 8 + 8 - 12 = 4`, which is not greater than
16, and the next offset is `dataEnd + 4 = 8` again: the loop never
leaves offset 8. -/
def cycleBuf : List Nat :=
  [137, 80, 78, 71, 13, 10, 26, 10, 255, 255, 255, 244, 73, 68, 65, 84]

/-- Buffer holding one well-formed zTXt chunk with keyword `workflow`,
compression method 0 and a valid zlib stream (a stored deflate block
containing the two bytes `hi`, with its adler32 trailer). -/
def bufZtxt : List Nat :=
  pngSig ++ [0, 0, 0, 23] ++ zTXtBytes ++
    (workflowBytes ++ [0, 0] ++
      [120, 1, 1, 2, 0, 253, 255, 104, 105, 1, 59, 0, 210]) ++
    [0, 0, 0, 0]

/-- Buffer whose single chunk declares length 256 while no data bytes
remain: a truncated trailing chunk. -/
def bufTrunc : List Nat :=
  pngSig ++ [0, 0, 1, 0] ++ tEXtBytes

/-- Buffer holding two tEXt chunks that both carry the keyword `k`
(byte 107), with texts `1` and `2` (bytes 49 and 50). -/
def bufDup : List Nat :=
  pngSig ++
    ([0, 0, 0, 3] ++ tEXtBytes ++ [107, 0, 49] ++ [0, 0, 0, 0]) ++
    ([0, 0, 0, 3] ++ tEXtBytes ++ [107, 0, 50] ++ [0, 0, 0, 0])

/-- Buffer holding one tEXt chunk whose data starts with the zero byte,
so the decoded keyword is the empty string and the text is `hi`. -/
def bufEmptyKw : List Nat :=
  pngSig ++ [0, 0, 0, 3] ++ tEXtBytes ++ [0, 104, 105] ++ [0, 0, 0, 0]

/-! ### Step lemmas for the fueled walk -/

theorem walkFrom_done {buf : List Nat} {fuel : Nat} {o : Int} {acc : MetadataMap}
    (h : pngView buf o = PngView.done) : walkFrom buf fuel o acc = some acc := by
  unfold walkFrom
  rw [h]

theorem walkFrom_brk {buf : List Nat} {fuel : Nat} {o : Int} {acc : MetadataMap}
    (h : pngView buf o = PngView.brk) : walkFrom buf fuel o acc = some acc := by
  unfold walkFrom
  rw [h]

theorem walkFrom_cont_zero {buf : List Nat} {o : Int} {acc : MetadataMap}
    {L : Int} {t d : List Nat} {nx : Int}
    (h : pngView buf o = PngView.cont L t d nx) : walkFrom buf 0 o acc = none := by
  unfold walkFrom
  rw [h]

theorem walkFrom_cont_succ {buf : List Nat} {f : Nat} {o : Int} {acc : MetadataMap}
    {L : Int} {t d : List Nat} {nx : Int}
    (h : pngView buf o = PngView.cont L t d nx) :
    walkFrom buf (f + 1) o acc = walkFrom buf f nx (applyChunk acc t d) := by
  conv_lhs => unfold walkFrom
  rw [h]

theorem walkEntries_done {buf : List Nat} {fuel : Nat} {o : Int}
    (h : pngView buf o = PngView.done) : walkEntries buf fuel o = some [] := by
  unfold walkEntries
  rw [h]

theorem walkEntries_brk {buf : List Nat} {fuel : Nat} {o : Int}
    (h : pngView buf o = PngView.brk) : walkEntries buf fuel o = some [] := by
  unfold walkEntries
  rw [h]

theorem walkEntries_cont_zero {buf : List Nat} {o : Int}
    {L : Int} {t d : List Nat} {nx : Int}
    (h : pngView buf o = PngView.cont L t d nx) : walkEntries buf 0 o = none := by
  unfold walkEntries
  rw [h]

theorem walkEntries_cont_succ {buf : List Nat} {f : Nat} {o : Int}
    {L : Int} {t d : List Nat} {nx : Int}
    (h : pngView buf o = PngView.cont L t d nx) :
    walkEntries buf (f + 1) o =
      (walkEntries buf f nx).map (fun es => chunkEntries t d ++ es) := by
  conv_lhs => unfold walkEntries
  rw [h]

theorem walkTrace_done {buf : List Nat} {fuel : Nat} {o : Int}
    (h : pngView buf o = PngView.done) : walkTrace buf fuel o = some ([], o) := by
  unfold walkTrace
  rw [h]

theorem walkTrace_brk {buf : List Nat} {fuel : Nat} {o : Int}
    (h : pngView buf o = PngView.brk) : walkTrace buf fuel o = some ([], o) := by
  unfold walkTrace
  rw [h]

theorem walkTrace_cont_zero {buf : List Nat} {o : Int}
    {L : Int} {t d : List Nat} {nx : Int}
    (h : pngView buf o = PngView.cont L t d nx) : walkTrace buf 0 o = none := by
  unfold walkTrace
  rw [h]

theorem walkTrace_cont_succ {buf : List Nat} {f : Nat} {o : Int}
    {L : Int} {t d : List Nat} {nx : Int}
    (h : pngView buf o = PngView.cont L t d nx) :
    walkTrace buf (f + 1) o =
      (walkTrace buf f nx).map (fun p => (L :: p.1, p.2)) := by
  conv_lhs => unfold walkTrace
  rw [h]

/-! ### Inversion and introduction lemmas for `pngView` -/

theorem pngView_done_of {buf : List Nat} {o : Int}
    (h1 : (buf.length : Int) < o + 8) : pngView buf o = PngView.done := by
  unfold pngView
  rw [if_pos (by omega)]

theorem pngView_brk_of {buf : List Nat} {o : Int}
    (h1 : o + 8 ≤ (buf.length : Int))
    (h2 : (buf.length : Int) < o + 8 + readUint32 buf o) :
    pngView buf o = PngView.brk := by
  unfold pngView
  rw [if_neg (by omega), if_pos (by omega)]

theorem pngView_cont_inv {buf : List Nat} {o : Int}
    {L : Int} {t d : List Nat} {nx : Int}
    (h : pngView buf o = PngView.cont L t d nx) :
    L = readUint32 buf o ∧ nx = o + 8 + readUint32 buf o + 4 ∧
      o + 8 ≤ (buf.length : Int) ∧
      o + 8 + readUint32 buf o ≤ (buf.length : Int) := by
  by_cases h1 : o + 8 > (buf.length : Int)
  · unfold pngView at h
    rw [if_pos h1] at h
    exact PngView.noConfusion h
  · by_cases h2 : o + 8 + readUint32 buf o > (buf.length : Int)
    · unfold pngView at h
      rw [if_neg h1, if_pos h2] at h
      exact PngView.noConfusion h
    · unfold pngView at h
      rw [if_neg h1, if_neg h2] at h
      injection h with hL ht hd hn
      exact ⟨hL.symm, hn.symm, by omega, by omega⟩

/-! ### First-zero splitting -/

theorem firstZeroIdx_of_not_mem {d : List Nat} (h : 0 ∉ d) :
    firstZeroIdx d = none := by
  induction d with
  | nil => rfl
  | cons b rest ih =>
    have hb : ¬ b = 0 := fun e => h (by simp [e])
    have hr : 0 ∉ rest := fun m => h (List.mem_cons_of_mem _ m)
    simp [firstZeroIdx, hb, ih hr]

theorem firstZeroIdx_append_zero (k t : List Nat) (h : 0 ∉ k) :
    firstZeroIdx (k ++ 0 :: t) = some k.length := by
  induction k with
  | nil => simp [firstZeroIdx]
  | cons b rest ih =>
    have hb : ¬ b = 0 := fun e => h (by simp [e])
    have hr : 0 ∉ rest := fun m => h (List.mem_cons_of_mem _ m)
    simp [firstZeroIdx, hb, ih hr]

theorem take_append_zero (k t : List Nat) : (k ++ 0 :: t).take k.length = k :=
  List.take_left k (0 :: t)

theorem drop_append_zero (k t : List Nat) :
    (k ++ 0 :: t).drop (k.length + 1) = t := by
  rw [← List.drop_drop, List.drop_left]
  rfl

theorem applyChunk_split {acc : MetadataMap} {k t : List Nat} (hk : 0 ∉ k) :
    applyChunk acc tEXtBytes (k ++ 0 :: t) = jsInsert acc k t := by
  unfold applyChunk
  rw [if_pos rfl, firstZeroIdx_append_zero k t hk]
  show jsInsert acc ((k ++ 0 :: t).take k.length)
      ((k ++ 0 :: t).drop (k.length + 1)) = jsInsert acc k t
  rw [take_append_zero, drop_append_zero]

theorem decodeTextChunk_split {k t : List Nat} (hk : 0 ∉ k) :
    decodeTextChunk (k ++ 0 :: t) = some (k, t) := by
  unfold decodeTextChunk
  rw [firstZeroIdx_append_zero k t hk]
  show some ((k ++ 0 :: t).take k.length, (k ++ 0 :: t).drop (k.length + 1)) =
    some (k, t)
  rw [take_append_zero, drop_append_zero]

/-! ### Association-list lemmas for the JS object model -/

theorem lookupMap_jsInsert (m : MetadataMap) (k v k2 : List Nat) :
    lookupMap (jsInsert m k v) k2 = if k = k2 then some v else lookupMap m k2 := by
  induction m with
  | nil => simp [jsInsert, lookupMap]
  | cons e rest ih =>
    obtain ⟨k3, v3⟩ := e
    by_cases h3 : k3 = k
    · subst h3
      simp only [jsInsert, if_pos rfl, lookupMap]
      split_ifs with h32 <;> rfl
    · simp only [jsInsert, if_neg h3, lookupMap, ih]
      by_cases h32 : k3 = k2
      · subst h32
        rw [if_pos rfl, if_neg (fun e => h3 e.symm), if_pos rfl]
      · rw [if_neg h32, if_neg h32]

theorem lookupMap_foldl (es : List (List Nat × List Nat)) :
    ∀ (acc : MetadataMap) (k : List Nat),
      lookupMap (es.foldl (fun m e => jsInsert m e.1 e.2) acc) k =
        (lastEntryVal es k).or (lookupMap acc k) := by
  induction es with
  | nil =>
    intro acc k
    simp [lastEntryVal, Option.none_or]
  | cons e rest ih =>
    intro acc k
    simp only [List.foldl_cons, lastEntryVal]
    rw [ih, lookupMap_jsInsert]
    cases lastEntryVal rest k with
    | none =>
      rw [Option.none_or, Option.none_or]
      by_cases h : e.1 = k
      · rw [if_pos h, if_pos h]
        rfl
      · rw [if_neg h, if_neg h]
        rw [Option.none_or]
    | some w =>
      rfl

theorem keys_jsInsert (m : MetadataMap) (k v : List Nat) :
    (jsInsert m k v).map Prod.fst =
      if k ∈ m.map Prod.fst then m.map Prod.fst else m.map Prod.fst ++ [k] := by
  induction m with
  | nil => simp [jsInsert]
  | cons e rest ih =>
    obtain ⟨k3, v3⟩ := e
    by_cases h3 : k3 = k
    · subst h3
      simp [jsInsert]
    · simp only [jsInsert, if_neg h3, List.map_cons, ih]
      by_cases hm : k ∈ rest.map Prod.fst
      · rw [if_pos hm, if_pos (by simp [hm])]
      · rw [if_neg hm, if_neg (by simp [hm, Ne.symm h3])]
        rfl

theorem nodupKeys_jsInsert {m : MetadataMap} (k v : List Nat)
    (h : (m.map Prod.fst).Nodup) : ((jsInsert m k v).map Prod.fst).Nodup := by
  rw [keys_jsInsert]
  split_ifs with hm
  · exact h
  · exact List.Nodup.append h (List.nodup_singleton k)
      (List.disjoint_singleton.mpr hm)

theorem nodupKeys_foldl (es : List (List Nat × List Nat)) :
    ∀ acc : MetadataMap, (acc.map Prod.fst).Nodup →
      (((es.foldl (fun m e => jsInsert m e.1 e.2) acc)).map Prod.fst).Nodup := by
  induction es with
  | nil => intro acc h; exact h
  | cons e rest ih =>
    intro acc h
    exact ih (jsInsert acc e.1 e.2) (nodupKeys_jsInsert e.1 e.2 h)

/-! ### The walk as a fold over its emitted entries -/

theorem applyChunk_eq_foldl (acc : MetadataMap) (t d : List Nat) :
    applyChunk acc t d =
      (chunkEntries t d).foldl (fun m e => jsInsert m e.1 e.2) acc := by
  unfold applyChunk chunkEntries
  by_cases ht : t = tEXtBytes
  · rw [if_pos ht, if_pos ht]
    cases hz : firstZeroIdx d <;> simp
  · rw [if_neg ht, if_neg ht]
    rfl

theorem walkFrom_eq_fold (buf : List Nat) :
    ∀ (fuel : Nat) (o : Int) (acc : MetadataMap),
      walkFrom buf fuel o acc =
        (walkEntries buf fuel o).map
          (fun es => es.foldl (fun m e => jsInsert m e.1 e.2) acc) := by
  intro fuel
  induction fuel with
  | zero =>
    intro o acc
    cases hv : pngView buf o with
    | done => rw [walkFrom_done hv, walkEntries_done hv]; rfl
    | brk => rw [walkFrom_brk hv, walkEntries_brk hv]; rfl
    | cont L t d nx => rw [walkFrom_cont_zero hv, walkEntries_cont_zero hv]; rfl
  | succ f ih =>
    intro o acc
    cases hv : pngView buf o with
    | done => rw [walkFrom_done hv, walkEntries_done hv]; rfl
    | brk => rw [walkFrom_brk hv, walkEntries_brk hv]; rfl
    | cont L t d nx =>
      rw [walkFrom_cont_succ hv, walkEntries_cont_succ hv,
        ih nx (applyChunk acc t d)]
      cases walkEntries buf f nx with
      | none => rfl
      | some es => simp [List.foldl_append, applyChunk_eq_foldl]

/-! ### Offset accumulation along the trace -/

theorem walkTrace_sum (buf : List Nat) :
    ∀ (fuel : Nat) (o : Int) (Ls : List Int) (stop : Int),
      walkTrace buf fuel o = some (Ls, stop) →
      stop = o + (Ls.map (fun L => 12 + L)).sum := by
  intro fuel
  induction fuel with
  | zero =>
    intro o Ls stop h
    cases hv : pngView buf o with
    | done =>
      rw [walkTrace_done hv] at h
      simp only [Option.some.injEq, Prod.mk.injEq] at h
      obtain ⟨h1, h2⟩ := h
      subst h1
      subst h2
      simp
    | brk =>
      rw [walkTrace_brk hv] at h
      simp only [Option.some.injEq, Prod.mk.injEq] at h
      obtain ⟨h1, h2⟩ := h
      subst h1
      subst h2
      simp
    | cont L t d nx =>
      rw [walkTrace_cont_zero hv] at h
      exact Option.noConfusion h
  | succ f ih =>
    intro o Ls stop h
    cases hv : pngView buf o with
    | done =>
      rw [walkTrace_done hv] at h
      simp only [Option.some.injEq, Prod.mk.injEq] at h
      obtain ⟨h1, h2⟩ := h
      subst h1
      subst h2
      simp
    | brk =>
      rw [walkTrace_brk hv] at h
      simp only [Option.some.injEq, Prod.mk.injEq] at h
      obtain ⟨h1, h2⟩ := h
      subst h1
      subst h2
      simp
    | cont L t d nx =>
      rw [walkTrace_cont_succ hv] at h
      cases hw : walkTrace buf f nx with
      | none =>
        rw [hw] at h
        exact Option.noConfusion h
      | some p =>
        obtain ⟨Ls2, stop2⟩ := p
        rw [hw] at h
        simp only [Option.map_some', Option.some.injEq, Prod.mk.injEq] at h
        obtain ⟨h1, h2⟩ := h
        have hs := ih nx Ls2 stop2 hw
        obtain ⟨hL, hnx, _, _⟩ := pngView_cont_inv hv
        subst h1
        subst h2
        simp only [List.map_cons, List.sum_cons]
        omega

theorem walkTrace_isSome_walkFrom (buf : List Nat) :
    ∀ (fuel : Nat) (o : Int) (acc : MetadataMap),
      (walkTrace buf fuel o).isSome = true →
      ∃ m, walkFrom buf fuel o acc = some m := by
  intro fuel
  induction fuel with
  | zero =>
    intro o acc h
    cases hv : pngView buf o with
    | done => exact ⟨acc, walkFrom_done hv⟩
    | brk => exact ⟨acc, walkFrom_brk hv⟩
    | cont L t d nx =>
      rw [walkTrace_cont_zero hv] at h
      simp at h
  | succ f ih =>
    intro o acc h
    cases hv : pngView buf o with
    | done => exact ⟨acc, walkFrom_done hv⟩
    | brk => exact ⟨acc, walkFrom_brk hv⟩
    | cont L t d nx =>
      rw [walkFrom_cont_succ hv]
      apply ih
      rw [walkTrace_cont_succ hv] at h
      cases hw : walkTrace buf f nx with
      | none =>
        rw [hw] at h
        simp at h
      | some p => simp [hw]

/-! ### Termination on buffers with nonnegative length fields -/

theorem getD_lt_of_forall {l : List Nat} {c : Nat} (h : ∀ b ∈ l, b < c)
    (hc : 0 < c) : ∀ n : Nat, l.getD n 0 < c := by
  induction l with
  | nil =>
    intro n
    simpa [List.getD_nil] using hc
  | cons b rest ih =>
    intro n
    cases n with
    | zero =>
      rw [List.getD_cons_zero]
      exact h b (List.mem_cons_self b rest)
    | succ n =>
      rw [List.getD_cons_succ]
      exact ih (fun x hx => h x (List.mem_cons_of_mem _ hx)) n

theorem getByte_lt_of_forall {buf : List Nat} {c : Nat} (h : ∀ b ∈ buf, b < c)
    (hc : 0 < c) (i : Int) : getByte buf i < c := by
  unfold getByte
  split_ifs
  · exact hc
  · exact getD_lt_of_forall h hc i.toNat

theorem readUint32_nonneg {buf : List Nat} (h : ∀ b ∈ buf, b < 128)
    (pos : Int) : 0 ≤ readUint32 buf pos := by
  have h0 := getByte_lt_of_forall h (by norm_num) pos
  have h1 := getByte_lt_of_forall h (by norm_num) (pos + 1)
  have h2 := getByte_lt_of_forall h (by norm_num) (pos + 2)
  have h3 := getByte_lt_of_forall h (by norm_num) (pos + 3)
  unfold readUint32 toInt32
  split_ifs with hs
  · exact Int.natCast_nonneg _
  · exfalso
    apply hs
    omega

theorem walkFrom_terminates {buf : List Nat} (h : ∀ b ∈ buf, b < 128) :
    ∀ (fuel : Nat) (o : Int) (acc : MetadataMap),
      (buf.length : Int) + 5 ≤ o + 12 * (fuel : Int) →
      ∃ m, walkFrom buf fuel o acc = some m := by
  intro fuel
  induction fuel with
  | zero =>
    intro o acc hle
    push_cast at hle
    exact ⟨acc, walkFrom_done (pngView_done_of (by omega))⟩
  | succ f ih =>
    intro o acc hle
    push_cast at hle
    cases hv : pngView buf o with
    | done => exact ⟨acc, walkFrom_done hv⟩
    | brk => exact ⟨acc, walkFrom_brk hv⟩
    | cont L t d nx =>
      obtain ⟨hL, hnx, h8, _⟩ := pngView_cont_inv hv
      have hnn := readUint32_nonneg h o
      rw [walkFrom_cont_succ hv]
      apply ih nx (applyChunk acc t d)
      omega

/-! ### The self-looping walker state of `cycleBuf` -/

theorem pngView_cycleBuf :
    pngView cycleBuf 8 = PngView.cont (-12) [73, 68, 65, 84] [] 8 := by decide

theorem applyChunk_cycleBuf (acc : MetadataMap) :
    applyChunk acc [73, 68, 65, 84] [] = acc := by
  unfold applyChunk
  rw [if_neg (by decide)]

theorem walkFrom_cycleBuf_none : ∀ (fuel : Nat) (acc : MetadataMap),
    walkFrom cycleBuf fuel 8 acc = none := by
  intro fuel
  induction fuel with
  | zero =>
    intro acc
    exact walkFrom_cont_zero pngView_cycleBuf
  | succ f ih =>
    intro acc
    rw [walkFrom_cont_succ pngView_cycleBuf, applyChunk_cycleBuf]
    exact ih acc

/-! ### Parsing a single encoded tEXt chunk -/

theorem readUint32_sig_be32 (L : Nat) (rest : List Nat) (hs : L < 2147483648) :
    readUint32 (pngSig ++ (be32 L ++ rest)) 8 = (L : Int) := by
  unfold readUint32 getByte
  norm_num
  unfold toInt32
  rw [if_pos (by simp [pngSig, be32]; omega)]
  simp [pngSig, be32]
  omega

theorem jsRelIdx_of_nonneg_le {len : Nat} {i : Int} (h0 : 0 ≤ i)
    (h1 : i ≤ (len : Int)) : jsRelIdx len i = i := by
  unfold jsRelIdx
  rw [if_neg (by omega), min_eq_left h1]

theorem length_sig_be32 (L : Nat) (k t crcB : List Nat) (hc : crcB.length = 4) :
    ((pngSig ++ (be32 L ++ (tEXtBytes ++ ((k ++ 0 :: t) ++ crcB)))).length : Int) =
      (k.length : Int) + t.length + 21 := by
  simp [pngSig, be32, tEXtBytes, hc]
  omega

theorem jsSlice_sig_data (L : Nat) (k t crcB : List Nat)
    (hL : L = k.length + 1 + t.length) (hc : crcB.length = 4) :
    jsSlice (pngSig ++ (be32 L ++ (tEXtBytes ++ ((k ++ 0 :: t) ++ crcB))))
      (8 + 8) (8 + 8 + (L : Int)) = k ++ 0 :: t := by
  have hlen := length_sig_be32 L k t crcB hc
  have h1 : jsRelIdx (pngSig ++ (be32 L ++ (tEXtBytes ++ ((k ++ 0 :: t) ++ crcB)))).length
      (8 + 8) = 8 + 8 := jsRelIdx_of_nonneg_le (by norm_num) (by omega)
  have h2 : jsRelIdx (pngSig ++ (be32 L ++ (tEXtBytes ++ ((k ++ 0 :: t) ++ crcB)))).length
      (8 + 8 + (L : Int)) = 8 + 8 + (L : Int) := jsRelIdx_of_nonneg_le (by omega) (by omega)
  unfold jsSlice
  rw [h1, h2]
  rw [show ((8 : Int) + 8 + (L : Nat) - (8 + 8)).toNat = L from by omega]
  rw [show ((8 : Int) + 8).toNat = 16 from by decide]
  have hdrop :
      (pngSig ++ (be32 L ++ (tEXtBytes ++ ((k ++ 0 :: t) ++ crcB)))).drop 16 =
        (k ++ 0 :: t) ++ crcB := by
    simp [pngSig, be32, tEXtBytes]
  rw [hdrop, List.take_left' (by simp; omega)]

theorem pngView_sig_encode (k t : List Nat)
    (hs : k.length + 1 + t.length < 2147483648) :
    pngView (pngSig ++ encodeTextChunk k t) 8 =
      PngView.cont ((k.length + 1 + t.length : Nat) : Int) tEXtBytes (k ++ 0 :: t)
        (8 + 8 + ((k.length + 1 + t.length : Nat) : Int) + 4) := by
  unfold encodeTextChunk
  have hread := readUint32_sig_be32 (k.length + 1 + t.length)
    (tEXtBytes ++ ((k ++ 0 :: t) ++ be32 (crc32 (tEXtBytes ++ (k ++ 0 :: t))))) hs
  have hlen := length_sig_be32 (k.length + 1 + t.length) k t
    (be32 (crc32 (tEXtBytes ++ (k ++ 0 :: t)))) (by simp [be32])
  unfold pngView
  rw [hread]
  rw [if_neg (by omega), if_neg (by omega)]
  congr 1
  exact jsSlice_sig_data (k.length + 1 + t.length) k t _ rfl (by simp [be32])

theorem parse_sig_encode (k t : List Nat) (hk0 : 0 ∉ k)
    (hs : k.length + 1 + t.length < 2147483648) :
    parsePngTexts (pngSig ++ encodeTextChunk k t) 1 = some [(k, t)] := by
  have hv := pngView_sig_encode k t hs
  have hlen := length_sig_be32 (k.length + 1 + t.length) k t
    (be32 (crc32 (tEXtBytes ++ (k ++ 0 :: t)))) (by simp [be32])
  unfold parsePngTexts
  rw [walkFrom_cont_succ hv, applyChunk_split hk0]
  rw [walkFrom_done (pngView_done_of (by
    unfold encodeTextChunk
    omega))]
  simp [jsInsert]

/-! ### Claim theorems -/

/-- C1 (counterexample): `bufZtxt` carries one well-formed zTXt chunk with
keyword `workflow` and a valid zlib stream, yet `parsePngTexts` returns the
empty map: the inline map builder does not decode zTXt chunks at all. -/
theorem c1_ztxt_counterexample : parsePngTexts bufZtxt 3 = some [] := by decide

/-- C1 (amended): the inline `parsePngTexts` ignores every zTXt chunk (it
leaves the map unchanged), while the modularized map-builder loop of
`readPngWorkflow` decodes a zTXt chunk through `decodeZtextChunk` and adds
the resulting keyword/text pair to the map. -/
theorem c1_ztxt_amended :
    (∀ (acc : MetadataMap) (d : List Nat), applyChunk acc zTXtBytes d = acc) ∧
    (∀ (inflate : List Nat → Option (List Nat)) (cs : List ModChunk)
      (acc : MetadataMap) (d k t : List Nat),
      decodeZtextChunk inflate d = some (k, t) →
      modBuildTexts inflate (ModChunk.mk zTXtBytes d :: cs) acc =
        modBuildTexts inflate cs (jsInsert acc k t)) := by
  constructor
  · intro acc d
    unfold applyChunk
    rw [if_neg (by decide)]
  · intro inflate cs acc d k t hdec
    conv_lhs => unfold modBuildTexts
    rw [show (ModChunk.mk zTXtBytes d).name = zTXtBytes from rfl]
    rw [if_neg (by decide), if_pos rfl]
    rw [show (ModChunk.mk zTXtBytes d).data = d from rfl, hdec]

/-- C1 (witness): with the identity taken for the inflate routine, the
modularized loop turns the zTXt chunk `6b 00 00 68` into the map entry
from keyword `k` to text `h`. -/
theorem c1_ztxt_witness :
    modBuildTexts (fun bs => some bs) [ModChunk.mk zTXtBytes [107, 0, 0, 104]] [] =
      modBuildTexts (fun bs => some bs) [] (jsInsert [] [107] [104]) :=
  c1_ztxt_amended.2 (fun bs => some bs) [] [] [107, 0, 0, 104] [107] [104] (by decide)

/-- C2: the chunk walk does NOT terminate on every buffer, because the
length field is read as a signed 32-bit value: on `cycleBuf` (length field
FF FF FF F4, read as -12) the loop stays at offset 8 forever, and the walk
returns no result no matter how much fuel it is given. -/
theorem c2_walk_nonterminating : ∀ fuel : Nat, parsePngTexts cycleBuf fuel = none := by
  intro fuel
  unfold parsePngTexts
  exact walkFrom_cycleBuf_none fuel []

/-- C3 (counterexample): with the keyword `workflow` present and bound to
the empty text, the remote-PNG lookup of `loadWorkflowFromRemotePng` still
produces its not-found error (`!raw` is true for the empty string), so the
not-found result is not reserved for absent keywords. -/
theorem c3_lookup_counterexample :
    lookupMap [(workflowBytes, [])] workflowBytes = some [] ∧
    remoteLookup [(workflowBytes, [])] = none := by decide

/-- C3 (amended): the `in`-based lookup of `readPngWorkflow` yields the
not-found result exactly for absent keys and faithfully returns a present
empty text, but the truthiness test of `loadWorkflowFromRemotePng` reports
not-found both for an absent `workflow` keyword and for an empty text. -/
theorem c3_lookup_amended :
    (∀ (texts : MetadataMap) (key : List Nat),
      readPngLookup texts key = none ↔ lookupMap texts key = none) ∧
    (∀ (texts : MetadataMap) (key v : List Nat),
      lookupMap texts key = some v → readPngLookup texts key = some v) ∧
    (∀ texts : MetadataMap,
      lookupMap texts workflowBytes = some [] → remoteLookup texts = none) ∧
    (∀ (texts : MetadataMap) (v : List Nat),
      lookupMap texts workflowBytes = some v → v ≠ [] →
      remoteLookup texts = some v) := by
  refine ⟨?_, ?_, ?_, ?_⟩
  · intro texts key
    unfold readPngLookup
    cases lookupMap texts key <;> simp
  · intro texts key v h
    unfold readPngLookup
    rw [h]
  · intro texts h
    unfold remoteLookup
    rw [h]
    rfl
  · intro texts v h hne
    unfold remoteLookup
    rw [h]
    exact if_neg hne

/-- C3 (witness): on the concrete map binding `workflow` to the empty
text, the local lookup returns the empty text while the remote lookup
reports not-found. -/
theorem c3_lookup_witness :
    readPngLookup [(workflowBytes, [])] workflowBytes = some [] ∧
    remoteLookup [(workflowBytes, [])] = none := by
  constructor
  · exact c3_lookup_amended.2.1 [(workflowBytes, [])] workflowBytes [] (by decide)
  · exact c3_lookup_amended.2.2.1 [(workflowBytes, [])] (by decide)

/-- C4: for an ASCII keyword without zero bytes and a text without zero
bytes, decoding the data field of `encodeTextChunk k t` recovers exactly
the pair `(k, t)`; the encoded chunk opens with the 4-byte big-endian
length `k.length + 1 + t.length`, then the ASCII type `tEXt`, then
keyword, zero separator and text, and closes with the CRC-32 over type
and data; and the real parser `parsePngTexts` recovers the pair from a
buffer holding the PNG signature and this single chunk. -/
theorem c4_encode_decode_roundtrip (k t : List Nat) (hk0 : 0 ∉ k)
    (_hka : ∀ b ∈ k, b < 128) (_ht0 : 0 ∉ t)
    (hsize : k.length + 1 + t.length < 2147483648) :
    decodeTextChunk (jsSlice (encodeTextChunk k t) 8
        (8 + ((k.length + 1 + t.length : Nat) : Int))) = some (k, t) ∧
    (encodeTextChunk k t).take 4 = be32 (k.length + 1 + t.length) ∧
    ((encodeTextChunk k t).drop 4).take 4 = tEXtBytes ∧
    (encodeTextChunk k t).drop (8 + (k.length + 1 + t.length)) =
      be32 (crc32 (tEXtBytes ++ (k ++ 0 :: t))) ∧
    parsePngTexts (pngSig ++ encodeTextChunk k t) 1 = some [(k, t)] := by
  refine ⟨?_, ?_, ?_, ?_, parse_sig_encode k t hk0 hsize⟩
  · have hencLen : ((encodeTextChunk k t).length : Int) =
        (k.length : Int) + t.length + 13 := by
      unfold encodeTextChunk
      simp [be32, tEXtBytes]
      omega
    have h1 : jsRelIdx (encodeTextChunk k t).length 8 = 8 :=
      jsRelIdx_of_nonneg_le (by norm_num) (by omega)
    have h2 : jsRelIdx (encodeTextChunk k t).length
        (8 + ((k.length + 1 + t.length : Nat) : Int)) =
        8 + ((k.length + 1 + t.length : Nat) : Int) :=
      jsRelIdx_of_nonneg_le (by omega) (by omega)
    unfold jsSlice
    rw [h1, h2]
    rw [show ((8 : Int) + ((k.length + 1 + t.length : Nat) : Int) - 8).toNat =
      k.length + 1 + t.length from by omega]
    rw [show ((8 : Int)).toNat = 8 from by decide]
    have hdrop : (encodeTextChunk k t).drop 8 =
        (k ++ 0 :: t) ++ be32 (crc32 (tEXtBytes ++ (k ++ 0 :: t))) := by
      unfold encodeTextChunk
      simp [be32, tEXtBytes]
    rw [hdrop, List.take_left' (by simp; omega), decodeTextChunk_split hk0]
  · unfold encodeTextChunk
    exact List.take_left' (by simp [be32])
  · unfold encodeTextChunk
    rw [List.drop_left' (by simp [be32])]
    exact List.take_left' rfl
  · unfold encodeTextChunk
    rw [← List.append_assoc, ← List.append_assoc]
    exact List.drop_left' (by simp [be32, tEXtBytes]; omega)

/-- C4 (witness): the round trip at keyword `w` and text `hi`. -/
theorem c4_roundtrip_witness :
    decodeTextChunk (jsSlice (encodeTextChunk [119] [104, 105]) 8
      (8 + ((([119] : List Nat).length + 1 + ([104, 105] : List Nat).length : Nat) : Int))) =
      some ([119], [104, 105]) :=
  (c4_encode_decode_roundtrip [119] [104, 105] (by decide) (by decide)
    (by decide) (by decide)).1

/-- C5: whenever the walk reaches an offset whose chunk declares a data
end past the buffer end, it stops at once and returns exactly the map
accumulated so far, for any remaining fuel and any accumulated entries. -/
theorem c5_truncated_chunk_stops (buf : List Nat) (fuel : Nat) (o : Int)
    (acc : MetadataMap) (h1 : o + 8 ≤ (buf.length : Int))
    (h2 : (buf.length : Int) < o + 8 + readUint32 buf o) :
    walkFrom buf fuel o acc = some acc :=
  walkFrom_brk (pngView_brk_of h1 h2)

/-- C5 (witness): `bufTrunc` declares a 256-byte chunk with no data bytes
left; the walk stops immediately with the empty map. -/
theorem c5_truncation_witness : walkFrom bufTrunc 5 8 [] = some [] :=
  c5_truncated_chunk_stops bufTrunc 5 8 [] (by decide) (by decide)

/-- C6: on a tEXt chunk the decoder splits the data at the first zero
byte, the bytes before it becoming the keyword and all bytes after it the
text, and a tEXt chunk without any zero byte contributes nothing. -/
theorem c6_text_split_first_zero (acc : MetadataMap) (d : List Nat) :
    (∀ k t : List Nat, 0 ∉ k → d = k ++ 0 :: t →
      applyChunk acc tEXtBytes d = jsInsert acc k t) ∧
    (0 ∉ d → applyChunk acc tEXtBytes d = acc) := by
  constructor
  · intro k t hk hd
    subst hd
    exact applyChunk_split hk
  · intro h0
    unfold applyChunk
    rw [if_pos rfl, firstZeroIdx_of_not_mem h0]

/-- C6 (witness): the data `6b 00 68` splits into keyword `k` and text
`h`; the data `6b 68` has no zero byte and leaves the map unchanged. -/
theorem c6_split_witness :
    applyChunk [] tEXtBytes [107, 0, 104] = jsInsert [] [107] [104] ∧
    applyChunk [] tEXtBytes [107, 104] = [] := by
  constructor
  · exact (c6_text_split_first_zero [] [107, 0, 104]).1 [107] [104]
      (by decide) (by decide)
  · exact (c6_text_split_first_zero [] [107, 104]).2 (by decide)

/-- C7: whenever the walk terminates, the returned map is keyed uniquely
and binds every keyword to the text of the LAST chunk in stream order
that carries it (last write wins). -/
theorem c7_last_write_wins (buf : List Nat) (fuel : Nat) (m : MetadataMap)
    (es : List (List Nat × List Nat))
    (hm : parsePngTexts buf fuel = some m)
    (he : walkEntries buf fuel 8 = some es) :
    (∀ k : List Nat, lookupMap m k = lastEntryVal es k) ∧
    (m.map Prod.fst).Nodup := by
  unfold parsePngTexts at hm
  rw [walkFrom_eq_fold buf fuel 8 [], he] at hm
  simp only [Option.map_some', Option.some.injEq] at hm
  subst hm
  constructor
  · intro k
    rw [lookupMap_foldl]
    rw [show lookupMap [] k = none from rfl, Option.or_none]
  · exact nodupKeys_foldl es [] (by simp)

/-- C7 (witness): `bufDup` carries two tEXt chunks with the same keyword
`k` and texts `1` then `2`; the parsed map binds `k` to `2`, the later
text, and its keys are unique. -/
theorem c7_last_write_witness :
    lookupMap [([107], [50])] [107] =
      lastEntryVal [([107], [49]), ([107], [50])] [107] ∧
    (([([107], [50])] : MetadataMap).map Prod.fst).Nodup := by
  have h := c7_last_write_wins bufDup 2 [([107], [50])]
    [([107], [49]), ([107], [50])] (by decide) (by decide)
  exact ⟨h.1 [107], h.2⟩

/-- C8: along any terminating walk the stop offset equals 8 plus the sum
of `12 + length` over the processed chunks, with each length the signed
value the code reads; the trace witnesses an actual terminating run of
`parsePngTexts`. -/
theorem c8_offset_accumulation (buf : List Nat) (fuel : Nat) (Ls : List Int)
    (stop : Int) (h : walkTrace buf fuel 8 = some (Ls, stop)) :
    stop = 8 + (Ls.map (fun L => 12 + L)).sum ∧
    ∃ m, parsePngTexts buf fuel = some m := by
  constructor
  · exact walkTrace_sum buf fuel 8 Ls stop h
  · unfold parsePngTexts
    exact walkTrace_isSome_walkFrom buf fuel 8 [] (by rw [h]; rfl)

/-- C8 (witness): on `bufDup` the walk processes two chunks of declared
length 3 and stops at offset 38 = 8 + (12 + 3) + (12 + 3). -/
theorem c8_offset_witness :
    (38 : Int) = 8 + (([3, 3] : List Int).map (fun L => 12 + L)).sum ∧
    ∃ m, parsePngTexts bufDup 2 = some m :=
  c8_offset_accumulation bufDup 2 [3, 3] 38 (by decide)

/-- C9 (counterexample): `parsePngTexts` does not always return a map:
on `cycleBuf` the walker state at offset 8 steps back to offset 8 with an
unchanged map, so the run never returns (here shown exhausting 1000
iterations of fuel). -/
theorem c9_nontermination_counterexample :
    pngView cycleBuf 8 = PngView.cont (-12) [73, 68, 65, 84] [] 8 ∧
    applyChunk [] [73, 68, 65, 84] [] = ([] : MetadataMap) ∧
    parsePngTexts cycleBuf 1000 = none :=
  ⟨pngView_cycleBuf, applyChunk_cycleBuf [], walkFrom_cycleBuf_none 1000 []⟩

/-- C9 (amended): the walk never throws, and on every buffer whose bytes
all have the high bit clear — so every length field is a nonnegative
signed 32-bit value — it terminates within `buf.length + 1` iterations
and returns a (possibly empty) map. -/
theorem c9_termination_amended (buf : List Nat) (h : ∀ b ∈ buf, b < 128) :
    ∃ m, parsePngTexts buf (buf.length + 1) = some m := by
  unfold parsePngTexts
  apply walkFrom_terminates h (buf.length + 1) 8 []
  push_cast
  omega

/-- C9 (witness): the three-byte garbage buffer `00 01 02` parses to a
map within four iterations. -/
theorem c9_termination_witness :
    ∃ m, parsePngTexts [0, 1, 2] (([0, 1, 2] : List Nat).length + 1) = some m :=
  c9_termination_amended [0, 1, 2] (by decide)

/-- C10: a tEXt chunk whose data opens with the zero byte is accepted:
the keyword is the empty string and the rest of the data is the text, so
the parsed map of `bufEmptyKw` really contains the empty keyword. -/
theorem c10_empty_keyword :
    (∀ (acc : MetadataMap) (rest : List Nat),
      applyChunk acc tEXtBytes (0 :: rest) = jsInsert acc [] rest) ∧
    parsePngTexts bufEmptyKw 1 = some [([], [104, 105])] := by
  constructor
  · intro acc rest
    exact @applyChunk_split acc [] rest (by simp)
  · decide
